import Mathlib

/-!
Verification of the potree-core octree descriptor loader (`POCLoader.js`).

The development shallowly embeds the loader: JavaScript numbers are modelled
as rationals (`ℚ`), JavaScript strings as lists of characters, the mutable
`nodes` map as an association list, and the `onload` callback body as a pure
function that additionally returns the ordered trace of its observable steps.
Components of the repository that are not part of the analysed sources
(`Version.js`, `PointAttributes.js`, the geometry-node class) are modelled
from the specification and marked as such.
-/

/-- A three-component vector, modelling `THREE.Vector3` with rational
coordinates. -/
structure Vec3 where
  x : ℚ
  y : ℚ
  z : ℚ
deriving DecidableEq

instance : Sub Vec3 := ⟨fun a b => ⟨a.x - b.x, a.y - b.y, a.z - b.z⟩⟩

instance : Add Vec3 := ⟨fun a b => ⟨a.x + b.x, a.y + b.y, a.z + b.z⟩⟩

/-- An axis-aligned box, modelling `THREE.Box3`. -/
structure Box3 where
  min : Vec3
  max : Vec3
deriving DecidableEq

/-- Membership of a point in a box (all six face inequalities, non-strict). -/
def Box3.containsPt (b : Box3) (p : Vec3) : Prop :=
  b.min.x ≤ p.x ∧ p.x ≤ b.max.x ∧
  b.min.y ≤ p.y ∧ p.y ≤ b.max.y ∧
  b.min.z ≤ p.z ∧ p.z ≤ b.max.z

/-- Membership of a point in the open interior of a box (strict inequalities). -/
def Box3.interiorPt (b : Box3) (p : Vec3) : Prop :=
  b.min.x < p.x ∧ p.x < b.max.x ∧
  b.min.y < p.y ∧ p.y < b.max.y ∧
  b.min.z < p.z ∧ p.z < b.max.z

/-- Box containment, stated componentwise: `inner` lies inside `outer`. -/
def Box3.containsBox (outer inner : Box3) : Prop :=
  outer.min.x ≤ inner.min.x ∧ inner.max.x ≤ outer.max.x ∧
  outer.min.y ≤ inner.min.y ∧ inner.max.y ≤ outer.max.y ∧
  outer.min.z ≤ inner.min.z ∧ inner.max.z ≤ outer.max.z

instance (b : Box3) (p : Vec3) : Decidable (b.containsPt p) := by
  unfold Box3.containsPt; infer_instance

instance (outer inner : Box3) : Decidable (outer.containsBox inner) := by
  unfold Box3.containsBox; infer_instance

/-- Function `POCLoader.createChildAABB`: clone `min`/`max`, compute `size = max - min`,
then for each of the three low bits of `index` move the matching component of
`min` up (bit set) or the matching component of `max` down (bit clear) by half
the extent.  Bit 0 acts on `z`, bit 1 on `y`, bit 2 on `x`, exactly as in the
source. -/
def createChildAABB (aabb : Box3) (index : Nat) : Box3 :=
  let min0 := aabb.min
  let max0 := aabb.max
  let size := max0 - min0
  let min1 := if 0 < index &&& 1 then { min0 with z := min0.z + size.z / 2 } else min0
  let max1 := if 0 < index &&& 1 then max0 else { max0 with z := max0.z - size.z / 2 }
  let min2 := if 0 < index &&& 2 then { min1 with y := min1.y + size.y / 2 } else min1
  let max2 := if 0 < index &&& 2 then max1 else { max1 with y := max1.y - size.y / 2 }
  let min3 := if 0 < index &&& 4 then { min2 with x := min2.x + size.x / 2 } else min2
  let max3 := if 0 < index &&& 4 then max2 else { max2 with x := max2.x - size.x / 2 }
  Box3.mk min3 max3

/-- The child box determined by the three child-index bits (x-bit, y-bit,
z-bit), written in closed form.  Used to reason about `createChildAABB`. -/
def childBoxOf (P : Box3) (cx cy cz : Bool) : Box3 :=
  ⟨⟨if cx then P.min.x + (P.max.x - P.min.x) / 2 else P.min.x,
    if cy then P.min.y + (P.max.y - P.min.y) / 2 else P.min.y,
    if cz then P.min.z + (P.max.z - P.min.z) / 2 else P.min.z⟩,
   ⟨if cx then P.max.x else P.max.x - (P.max.x - P.min.x) / 2,
    if cy then P.max.y else P.max.y - (P.max.y - P.min.y) / 2,
    if cz then P.max.z else P.max.z - (P.max.z - P.min.z) / 2⟩⟩

/-- A JavaScript string, modelled as its sequence of characters. -/
abbrev JSStr := List Char

/-- Modelled from the spec: `Version.js` is not among the analysed sources.
Per the spec, the version is a parsed `"major.minor"` dotted string. -/
structure Version where
  major : Nat
  minor : Nat
deriving DecidableEq

/-- Modelled from the spec: `Version.upTo` is an ordering predicate, true if
the parsed version is less than or equal to the threshold version, compared
numerically per component. -/
def Version.upTo (v t : Version) : Bool :=
  decide (v.major < t.major) ||
    (decide (v.major = t.major) && decide (v.minor ≤ t.minor))

/-- The declared world-space bounding box of the metadata document
(`{lx, ly, lz, ux, uy, uz}`). -/
structure BoundingBoxData where
  lx : ℚ
  ly : ℚ
  lz : ℚ
  ux : ℚ
  uy : ℚ
  uz : ℚ
deriving DecidableEq

/-- The document's `pointAttributes` field: either a string tag or a list of
attribute descriptor names. -/
inductive PointAttrsValue where
  | tag (s : JSStr)
  | attrList (l : List JSStr)
deriving DecidableEq

/-- The parsed metadata document (`data` in `xhr.onload`), with the fields the
loader reads. -/
structure PotreeDoc where
  version : Version
  octreeDir : JSStr
  spacing : ℚ
  hierarchyStepSize : Nat
  pointAttributes : PointAttrsValue
  boundingBox : BoundingBoxData
  tightBoundingBox : Option BoundingBoxData
  projection : JSStr
  scale : ℚ
  hierarchy : List (JSStr × Nat)
deriving DecidableEq

/-- Modelled from the spec: `PointAttributes.js` is not among the analysed
sources.  The spec says the document's attribute list is expanded into an
ordered field-layout object owned by the descriptor; we model that object as
a wrapper around the raw attribute value it was constructed from. -/
structure PointAttributesObj where
  source : PointAttrsValue
deriving DecidableEq

/-- The descriptor's `pointAttributes` field: the raw document value, or the
expanded field-layout object produced by the `new PointAttributes(...)` call. -/
inductive DescriptorAttrs where
  | raw (v : PointAttrsValue)
  | expanded (p : PointAttributesObj)
deriving DecidableEq

/-- The payload decoder selected for the dataset: `new LASLAZLoader(version)`
or `new BinaryLoader(version, boundingBox, scale)`. -/
inductive PCLoader where
  | lasLaz (version : Version)
  | binary (version : Version) (boundingBox : Box3) (scale : ℚ)
deriving DecidableEq

/-- The observable steps of `POCLoader.load`'s success path, in source order:
coordinate normalization (lines 52–76), decoder selection (79–87), root
construction (92–96), the `pco.root.load()` call (99), each child node built
by the legacy hierarchy loop (103–122), and the completion callback (125). -/
inductive LoadEvent where
  | normalizing
  | decoderSelecting
  | rootBuilt
  | rootLoadTriggered
  | childBuilt (name : JSStr)
  | completed
deriving DecidableEq

/-- One `PointCloudOctreeGeometryNode` with the fields the loader assigns. -/
structure GeometryNode where
  name : JSStr
  boundingBox : Box3
  level : Nat
  hasChildren : Bool
  spacing : ℚ
  numPoints : Nat
deriving DecidableEq

/-- The mutable state of the tree-building loop: the flat `nodes` index and
the set of `addChild` edges (parent name, child name) performed so far. -/
structure BuildState where
  nodes : List (JSStr × GeometryNode)
  edges : List (JSStr × JSStr)
deriving DecidableEq

/-- Lookup in the flat node index (`nodes[name]`); the most recent binding for
a name wins, matching the JavaScript object-property semantics. -/
def lookupName (l : List (JSStr × GeometryNode)) (n : JSStr) : Option GeometryNode :=
  match l with
  | [] => none
  | (k, v) :: rest => if k = n then some v else lookupName rest n

/-- The keys of the flat node index, most recent first. -/
def nodeKeys (l : List (JSStr × GeometryNode)) : List JSStr :=
  l.map Prod.fst

/-- Expression `parseInt(name.charAt(name.length - 1))` as consumed by the bitwise tests
of `createChildAABB`: a decimal digit character parses to its value; any other
character parses to `NaN`, which the bitwise operations coerce to 0. -/
def jsParseDigit (c : Char) : Nat :=
  if '0' ≤ c ∧ c ≤ '9' then c.toNat - '0'.toNat else 0

/-- Lines 38–46: the base directory is the document's `octreeDir` verbatim if
it starts with `http`, else the unresolved join `url + "/../" + octreeDir`. -/
def resolveOctreeDir (url octreeDir : JSStr) : JSStr :=
  if octreeDir.take 4 = ['h', 't', 't', 'p'] then octreeDir
  else url ++ ['/', '.', '.', '/'] ++ octreeDir

/-- Lines 52–69: build the two boxes from the declared corners (the tight box
defaulting to a clone of the full box), take `offset = min`, and subtract the
offset from all four corner vectors.  Returns
`(boundingBox, tightBoundingBox, offset)`. -/
def normalizeBoxes (bb : BoundingBoxData) (tbb : Option BoundingBoxData) :
    Box3 × Box3 × Vec3 :=
  let bmin : Vec3 := ⟨bb.lx, bb.ly, bb.lz⟩
  let bmax : Vec3 := ⟨bb.ux, bb.uy, bb.uz⟩
  let boundingBox : Box3 := ⟨bmin, bmax⟩
  let tightBoundingBox : Box3 :=
    match tbb with
    | some t => ⟨⟨t.lx, t.ly, t.lz⟩, ⟨t.ux, t.uy, t.uz⟩⟩
    | none => boundingBox
  let offset := bmin
  (⟨boundingBox.min - offset, boundingBox.max - offset⟩,
   ⟨tightBoundingBox.min - offset, tightBoundingBox.max - offset⟩, offset)

/-- Lines 79–87: select the payload decoder and the descriptor's attribute
value.  `boundingBox` is the already-normalized box in scope at line 85. -/
def selectLoader (version : Version) (pa : PointAttrsValue) (boundingBox : Box3)
    (scale : ℚ) : PCLoader × DescriptorAttrs :=
  if pa = PointAttrsValue.tag "LAS".data ∨ pa = PointAttrsValue.tag "LAZ".data then
    (PCLoader.lasLaz version, DescriptorAttrs.raw pa)
  else
    (PCLoader.binary version boundingBox scale, DescriptorAttrs.expanded ⟨pa⟩)

/-- Line 96: the root's point count is `data.hierarchy[0][1]` when
`version.upTo('1.5')`, else `0`; indexing an absent first entry is a crash
(`none`). -/
def buildRootNumPoints (version : Version) (hierarchy : List (JSStr × Nat)) :
    Option Nat :=
  if version.upTo ⟨1, 5⟩ then hierarchy.head?.map Prod.snd else some 0

/-- One iteration of the legacy hierarchy loop (lines 105–121): read the entry,
parse the child index from the last character of the name, look the parent up
by the name minus its last character (a missing parent is a crash, `none`),
derive level, box and spacing, attach the child and register it. -/
def buildStep (rootSpacing : ℚ) (st : BuildState) (e : JSStr × Nat) :
    Option (BuildState × LoadEvent) :=
  let name := e.1
  let numPoints := e.2
  let index := jsParseDigit (name.getLastD '0')
  let parentName := name.dropLast
  match lookupName st.nodes parentName with
  | none => none
  | some parentNode =>
    let level := name.length - 1
    let boundingBox := createChildAABB parentNode.boundingBox index
    let node : GeometryNode :=
      ⟨name, boundingBox, level, false, rootSpacing / 2 ^ level, numPoints⟩
    some (⟨(name, node) :: st.nodes, (parentName, name) :: st.edges⟩,
      LoadEvent.childBuilt name)

/-- The legacy hierarchy loop over the entries after the first (lines 103–122),
also collecting the per-child trace events. -/
def buildChildren (rootSpacing : ℚ) (st : BuildState) :
    List (JSStr × Nat) → Option (BuildState × List LoadEvent)
  | [] => some (st, [])
  | e :: rest =>
    match buildStep rootSpacing st e with
    | none => none
    | some (st1, ev) =>
      match buildChildren rootSpacing st1 rest with
      | none => none
      | some (st2, evs) => some (st2, ev :: evs)

/-- The populated `PointCloudOctreeGeometry` descriptor handed to the caller. -/
structure Descriptor where
  url : JSStr
  octreeDir : JSStr
  spacing : ℚ
  hierarchyStepSize : Nat
  pointAttributes : DescriptorAttrs
  projection : JSStr
  boundingBox : Box3
  tightBoundingBox : Box3
  offset : Vec3
  loader : PCLoader
  root : GeometryNode
  nodes : List (JSStr × GeometryNode)
  edges : List (JSStr × JSStr)
deriving DecidableEq

/-- Lines 92–96: the root node, named `r`, carrying the normalized box,
level 0, `hasChildren = true` unconditionally, the declared root spacing, and
the version-dependent point count. -/
def mkRoot (boundingBox : Box3) (spacing : ℚ) (rootNumPoints : Nat) : GeometryNode :=
  ⟨['r'], boundingBox, 0, true, spacing, rootNumPoints⟩

/-- The node index and edge set right after `nodes[name] = root` (line 100). -/
def initialState (data : PotreeDoc) (rootNumPoints : Nat) : BuildState :=
  ⟨[(['r'], mkRoot (normalizeBoxes data.boundingBox data.tightBoundingBox).1
      data.spacing rootNumPoints)], []⟩

/-- The descriptor as populated by `xhr.onload` for a given final loop state. -/
def mkDescriptor (url : JSStr) (data : PotreeDoc) (rootNumPoints : Nat)
    (st : BuildState) : Descriptor :=
  let nrm := normalizeBoxes data.boundingBox data.tightBoundingBox
  let sel := selectLoader data.version data.pointAttributes nrm.1 data.scale
  { url := url
    octreeDir := resolveOctreeDir url data.octreeDir
    spacing := data.spacing
    hierarchyStepSize := data.hierarchyStepSize
    pointAttributes := sel.2
    projection := data.projection
    boundingBox := nrm.1
    tightBoundingBox := nrm.2.1
    offset := nrm.2.2
    loader := sel.1
    root := mkRoot nrm.1 data.spacing rootNumPoints
    nodes := st.nodes
    edges := st.edges }

/-- The trace prefix shared by every successful load, in source order:
normalization, decoder selection, root construction, `pco.root.load()`. -/
def preEvents : List LoadEvent :=
  [LoadEvent.normalizing, LoadEvent.decoderSelecting, LoadEvent.rootBuilt,
    LoadEvent.rootLoadTriggered]

/-- The body of `xhr.onload` (lines 33–126): resolve the directory, normalize
the boxes, select the decoder, build the root, trigger the root's payload
load, run the legacy hierarchy loop when `version.upTo('1.4')`, and invoke the
callback.  Returns the descriptor passed to the callback together with the
ordered trace of observable steps, or `none` if the body throws. -/
def loadOnLoad (url : JSStr) (data : PotreeDoc) :
    Option (Descriptor × List LoadEvent) :=
  match buildRootNumPoints data.version data.hierarchy with
  | none => none
  | some rootNumPoints =>
    if data.version.upTo ⟨1, 4⟩ then
      match buildChildren data.spacing (initialState data rootNumPoints)
          data.hierarchy.tail with
      | none => none
      | some (st, evs) =>
        some (mkDescriptor url data rootNumPoints st,
          preEvents ++ evs ++ [LoadEvent.completed])
    else
      some (mkDescriptor url data rootNumPoints (initialState data rootNumPoints),
        preEvents ++ [] ++ [LoadEvent.completed])

/-- The mutable global state touched by `xhr.onerror`
(`Global.numNodesLoading`). -/
structure GlobalState where
  numNodesLoading : Int
deriving DecidableEq

/-- The body of `xhr.onerror` (lines 128–133): decrement the in-flight load
counter, append the diagnostic log entry (message, url, event), and invoke the
callback with no descriptor. -/
def xhrOnError (g : GlobalState) (log : List (String × JSStr × JSStr))
    (url : JSStr) (event : JSStr) :
    GlobalState × List (String × JSStr × JSStr) × Option Descriptor :=
  (⟨g.numNodesLoading - 1⟩, log ++ [("Potree: loading file failed.", url, event)],
    none)

/-- A current-format (version 2.0) document with a declared tight box and a
`"LAS"` attribute tag. -/
def docNorm : PotreeDoc :=
  { version := ⟨2, 0⟩
    octreeDir := "data".data
    spacing := 1
    hierarchyStepSize := 5
    pointAttributes := PointAttrsValue.tag "LAS".data
    boundingBox := ⟨0, 0, 0, 4, 4, 4⟩
    tightBoundingBox := some ⟨1, 1, 1, 3, 3, 3⟩
    projection := []
    scale := 1
    hierarchy := [] }

/-- A current-format document with an attribute descriptor list. -/
def docBin : PotreeDoc :=
  { docNorm with
    pointAttributes := PointAttrsValue.attrList ["POSITION_CARTESIAN".data] }

/-- A current-format document whose `octreeDir` is an absolute URL. -/
def docAbs : PotreeDoc :=
  { docNorm with octreeDir := "http://host/data".data }

/-- A legacy (version 1.4) document with only the root hierarchy entry. -/
def docLegacyRoot : PotreeDoc :=
  { docNorm with version := ⟨1, 4⟩, hierarchy := [(['r'], 100)] }

/-- Whether a trace event is a tree-building step (root or child
construction). -/
def isTreeBuildEvent : LoadEvent → Bool
  | LoadEvent.rootBuilt => true
  | LoadEvent.childBuilt _ => true
  | _ => false

/-- Every tree-building event precedes every `rootLoadTriggered` event: the
root's payload load fires only after the full tree has been built. -/
def allTreeBuildBeforeTrigger (tr : List LoadEvent) : Prop :=
  ∀ (i j : Fin tr.length), tr.get i = LoadEvent.rootLoadTriggered →
    isTreeBuildEvent (tr.get j) = true → (j : Nat) < (i : Nat)

/-- The state order asserted by the claim, as constraints on a trace: all tree
building precedes decoder selection, all tree building precedes the root-load
trigger, and the trigger precedes completion. -/
def claimedOrderC5 (tr : List LoadEvent) : Prop :=
  (∀ i j : Fin tr.length, isTreeBuildEvent (tr.get i) = true →
    tr.get j = LoadEvent.decoderSelecting → (i : Nat) < (j : Nat)) ∧
  allTreeBuildBeforeTrigger tr ∧
  (∀ i j : Fin tr.length, tr.get i = LoadEvent.rootLoadTriggered →
    tr.get j = LoadEvent.completed → (i : Nat) < (j : Nat))

instance (tr : List LoadEvent) : Decidable (allTreeBuildBeforeTrigger tr) := by
  unfold allTreeBuildBeforeTrigger; infer_instance

instance (tr : List LoadEvent) : Decidable (claimedOrderC5 tr) := by
  unfold claimedOrderC5; infer_instance

/-- A legacy (version 1.0) document whose hierarchy contains a child entry. -/
def docLegacyChild : PotreeDoc :=
  { docNorm with version := ⟨1, 0⟩, hierarchy := [(['r'], 100), (['r', '0'], 10)] }

/-- A current-format document whose declared tight box lies outside the
declared full box. -/
def docTightOutside : PotreeDoc :=
  { docNorm with tightBoundingBox := some ⟨5, 5, 5, 6, 6, 6⟩ }

/-- The hierarchy-list contract of the legacy format: each entry's parent name
(the entry's name minus its last character) is already registered — among the
initially seen names or as an earlier entry's name — when the entry is
reached. -/
def parentsPrecede (seen : List JSStr) : List (JSStr × Nat) → Bool
  | [] => true
  | e :: rest => decide (e.1.dropLast ∈ seen) && parentsPrecede (e.1 :: seen) rest

/-- What the legacy loop promises for one processed hierarchy entry: the entry
is registered under its name, its parent is in the index under the name minus
the last character, and level, bounding box, spacing, point count and the
`addChild` edge are as the loop computes them. -/
def childEntryOk (rootSpacing : ℚ) (nodes : List (JSStr × GeometryNode))
    (edges : List (JSStr × JSStr)) (e : JSStr × Nat) : Prop :=
  ∃ node pnode,
    lookupName nodes e.1 = some node ∧
    lookupName nodes e.1.dropLast = some pnode ∧
    node.level = e.1.length - 1 ∧
    node.boundingBox = createChildAABB pnode.boundingBox
      (jsParseDigit (e.1.getLastD '0')) ∧
    node.spacing = rootSpacing / 2 ^ (e.1.length - 1) ∧
    node.numPoints = e.2 ∧
    (e.1.dropLast, e.1) ∈ edges

/-- A legacy document realizing the spec's worked example: hierarchy
`[("r",100), ("r0",10), ("r01",3)]` with root spacing 1. -/
def docLegacyExample : PotreeDoc :=
  { docNorm with
    version := ⟨1, 4⟩
    hierarchy := [(['r'], 100), (['r', '0'], 10), (['r', '0', '1'], 3)] }

/-- A heap of `Vector3` cells; references are indices into the heap. -/
def storeRead (σ : List Vec3) (r : Nat) : Vec3 :=
  σ.getD r ⟨0, 0, 0⟩

/-- Destructive update of one `Vector3` cell. -/
def storeWrite (σ : List Vec3) (r : Nat) (v : Vec3) : List Vec3 :=
  σ.set r v

/-- A `Box3` as a pair of references to its `min` and `max` vectors. -/
structure Box3Ref where
  minRef : Nat
  maxRef : Nat
deriving DecidableEq

/-- The z-axis conditional of `createChildAABB` acting on heap cells:
`min.z += size.z / 2` or `max.z -= size.z / 2`. -/
def refStepZ (σ : List Vec3) (rm rM : Nat) (size : Vec3) (index : Nat) :
    List Vec3 :=
  if 0 < index &&& 1 then
    storeWrite σ rm { storeRead σ rm with z := (storeRead σ rm).z + size.z / 2 }
  else
    storeWrite σ rM { storeRead σ rM with z := (storeRead σ rM).z - size.z / 2 }

/-- The y-axis conditional of `createChildAABB` acting on heap cells. -/
def refStepY (σ : List Vec3) (rm rM : Nat) (size : Vec3) (index : Nat) :
    List Vec3 :=
  if 0 < index &&& 2 then
    storeWrite σ rm { storeRead σ rm with y := (storeRead σ rm).y + size.y / 2 }
  else
    storeWrite σ rM { storeRead σ rM with y := (storeRead σ rM).y - size.y / 2 }

/-- The x-axis conditional of `createChildAABB` acting on heap cells. -/
def refStepX (σ : List Vec3) (rm rM : Nat) (size : Vec3) (index : Nat) :
    List Vec3 :=
  if 0 < index &&& 4 then
    storeWrite σ rm { storeRead σ rm with x := (storeRead σ rm).x + size.x / 2 }
  else
    storeWrite σ rM { storeRead σ rM with x := (storeRead σ rM).x - size.x / 2 }

/-- Function `POCLoader.createChildAABB` at the heap level: clone the two parent
vectors into freshly allocated cells, mutate the clones through the three
axis conditionals, and return a box holding references to the clones. -/
def createChildAABBRef (σ : List Vec3) (aabb : Box3Ref) (index : Nat) :
    List Vec3 × Box3Ref :=
  let minR := σ.length
  let σ1 := σ ++ [storeRead σ aabb.minRef]
  let maxR := σ1.length
  let σ2 := σ1 ++ [storeRead σ1 aabb.maxRef]
  let size := storeRead σ2 maxR - storeRead σ2 minR
  let σ3 := refStepZ σ2 minR maxR size index
  let σ4 := refStepY σ3 minR maxR size index
  let σ5 := refStepX σ4 minR maxR size index
  (σ5, ⟨minR, maxR⟩)

theorem Vec3.sub_def (a b : Vec3) : a - b = ⟨a.x - b.x, a.y - b.y, a.z - b.z⟩ := rfl

theorem Vec3.add_def (a b : Vec3) : a + b = ⟨a.x + b.x, a.y + b.y, a.z + b.z⟩ := rfl

theorem createChildAABB_eq_childBoxOf (P : Box3) (i : Nat) :
    createChildAABB P i =
      childBoxOf P (decide (0 < i &&& 4)) (decide (0 < i &&& 2)) (decide (0 < i &&& 1)) := by
  by_cases h1 : 0 < i &&& 1 <;> by_cases h2 : 0 < i &&& 2 <;> by_cases h4 : 0 < i &&& 4 <;>
    simp only [createChildAABB, childBoxOf, Vec3.sub_def, h1, h2, h4,
      decide_True, decide_False, if_true, if_false, eq_self_iff_true] <;> rfl

theorem axisChoose (a b p : ℚ) (h1 : a ≤ p) (h2 : p ≤ b) :
    ∃ c : Bool, ((if c then a + (b - a) / 2 else a) ≤ p ∧
      p ≤ (if c then b else b - (b - a) / 2)) := by
  rcases le_or_lt (a + (b - a) / 2) p with h | h
  · exact ⟨true, by simpa using h, by simpa using h2⟩
  · refine ⟨false, by simpa using h1, ?_⟩
    simp only [if_false, Bool.false_eq_true]
    linarith

theorem childBoxOf_cover (P : Box3) (p : Vec3) (hp : P.containsPt p) :
    ∃ cx cy cz : Bool, (childBoxOf P cx cy cz).containsPt p := by
  obtain ⟨h1, h2, h3, h4, h5, h6⟩ := hp
  obtain ⟨cx, hx1, hx2⟩ := axisChoose P.min.x P.max.x p.x h1 h2
  obtain ⟨cy, hy1, hy2⟩ := axisChoose P.min.y P.max.y p.y h3 h4
  obtain ⟨cz, hz1, hz2⟩ := axisChoose P.min.z P.max.z p.z h5 h6
  exact ⟨cx, cy, cz, hx1, hx2, hy1, hy2, hz1, hz2⟩

theorem childBoxOf_subset (P : Box3)
    (hx : P.min.x ≤ P.max.x) (hy : P.min.y ≤ P.max.y) (hz : P.min.z ≤ P.max.z)
    (cx cy cz : Bool) (p : Vec3) (hp : (childBoxOf P cx cy cz).containsPt p) :
    P.containsPt p := by
  obtain ⟨h1, h2, h3, h4, h5, h6⟩ := hp
  cases cx <;> cases cy <;> cases cz <;>
    simp only [childBoxOf, if_true, if_false, Bool.false_eq_true] at h1 h2 h3 h4 h5 h6 <;>
    exact ⟨by linarith, by linarith, by linarith, by linarith, by linarith, by linarith⟩

theorem childBoxOf_interior_disjoint (P : Box3) (cx cy cz dx dy dz : Bool)
    (hne : (cx, cy, cz) ≠ (dx, dy, dz)) (p : Vec3) :
    ¬ ((childBoxOf P cx cy cz).interiorPt p ∧ (childBoxOf P dx dy dz).interiorPt p) := by
  rintro ⟨⟨a1, a2, a3, a4, a5, a6⟩, ⟨b1, b2, b3, b4, b5, b6⟩⟩
  cases cx <;> cases cy <;> cases cz <;> cases dx <;> cases dy <;> cases dz <;>
    simp only [childBoxOf, if_true, if_false, Bool.false_eq_true] at a1 a2 a3 a4 a5 a6 b1 b2 b3 b4 b5 b6 <;>
    first
      | exact hne rfl
      | linarith

theorem childBoxOf_extent (P : Box3) (cx cy cz : Bool) :
    (childBoxOf P cx cy cz).max.x - (childBoxOf P cx cy cz).min.x = (P.max.x - P.min.x) / 2 ∧
    (childBoxOf P cx cy cz).max.y - (childBoxOf P cx cy cz).min.y = (P.max.y - P.min.y) / 2 ∧
    (childBoxOf P cx cy cz).max.z - (childBoxOf P cx cy cz).min.z = (P.max.z - P.min.z) / 2 := by
  cases cx <;> cases cy <;> cases cz <;>
    refine ⟨?_, ?_, ?_⟩ <;>
    simp only [childBoxOf, if_true, if_false, Bool.false_eq_true] <;> ring

theorem existsIndexOfBits (cx cy cz : Bool) :
    ∃ i, i < 8 ∧ decide (0 < i &&& 4) = cx ∧ decide (0 < i &&& 2) = cy ∧
      decide (0 < i &&& 1) = cz := by
  cases cx <;> cases cy <;> cases cz
  · exact ⟨0, by decide⟩
  · exact ⟨1, by decide⟩
  · exact ⟨2, by decide⟩
  · exact ⟨3, by decide⟩
  · exact ⟨4, by decide⟩
  · exact ⟨5, by decide⟩
  · exact ⟨6, by decide⟩
  · exact ⟨7, by decide⟩

theorem bitsInjectiveBelow8 (i j : Nat) (hi : i < 8) (hj : j < 8)
    (h : (decide (0 < i &&& 4), decide (0 < i &&& 2), decide (0 < i &&& 1)) =
      (decide (0 < j &&& 4), decide (0 < j &&& 2), decide (0 < j &&& 1))) : i = j := by
  interval_cases i <;> interval_cases j <;> first | rfl | (exact absurd h (by decide))

/-- C2: for a box with `min ≤ max` componentwise, the eight `createChildAABB`
children tile the parent exactly (every parent point lies in some child and
every child point lies in the parent), have pairwise disjoint interiors, and
each has exactly half the parent's extent on each axis. -/
theorem createChildAABB_tiles_parent (P : Box3)
    (hx : P.min.x ≤ P.max.x) (hy : P.min.y ≤ P.max.y) (hz : P.min.z ≤ P.max.z) :
    (∀ p : Vec3, P.containsPt p ↔ ∃ i, i < 8 ∧ (createChildAABB P i).containsPt p) ∧
    (∀ i j, i < 8 → j < 8 → i ≠ j → ∀ p : Vec3,
      ¬ ((createChildAABB P i).interiorPt p ∧ (createChildAABB P j).interiorPt p)) ∧
    (∀ i, i < 8 →
      (createChildAABB P i).max.x - (createChildAABB P i).min.x = (P.max.x - P.min.x) / 2 ∧
      (createChildAABB P i).max.y - (createChildAABB P i).min.y = (P.max.y - P.min.y) / 2 ∧
      (createChildAABB P i).max.z - (createChildAABB P i).min.z = (P.max.z - P.min.z) / 2) := by
  refine ⟨?_, ?_, ?_⟩
  · intro p
    constructor
    · intro hp
      obtain ⟨cx, cy, cz, hmem⟩ := childBoxOf_cover P p hp
      obtain ⟨i, hi8, hbx, hby, hbz⟩ := existsIndexOfBits cx cy cz
      refine ⟨i, hi8, ?_⟩
      rw [createChildAABB_eq_childBoxOf, hbx, hby, hbz]
      exact hmem
    · rintro ⟨i, _, hmem⟩
      rw [createChildAABB_eq_childBoxOf] at hmem
      exact childBoxOf_subset P hx hy hz _ _ _ p hmem
  · intro i j hi hj hij p
    rw [createChildAABB_eq_childBoxOf, createChildAABB_eq_childBoxOf]
    refine childBoxOf_interior_disjoint P _ _ _ _ _ _ ?_ p
    intro hbits
    exact hij (bitsInjectiveBelow8 i j hi hj hbits)
  · intro i _
    rw [createChildAABB_eq_childBoxOf]
    exact childBoxOf_extent P _ _ _

/-- Witness: the tiling theorem instantiated at the concrete box [0,2]x[0,4]x[0,6]. -/
theorem createChildAABB_tiles_parent_witness :
    ((0 : ℚ) ≤ 2 ∧ (0 : ℚ) ≤ 4 ∧ (0 : ℚ) ≤ 6) ∧
    (∀ p : Vec3, (Box3.mk ⟨0, 0, 0⟩ ⟨2, 4, 6⟩).containsPt p ↔
      ∃ i, i < 8 ∧ (createChildAABB (Box3.mk ⟨0, 0, 0⟩ ⟨2, 4, 6⟩) i).containsPt p) ∧
    (∀ i j, i < 8 → j < 8 → i ≠ j → ∀ p : Vec3,
      ¬ ((createChildAABB (Box3.mk ⟨0, 0, 0⟩ ⟨2, 4, 6⟩) i).interiorPt p ∧
         (createChildAABB (Box3.mk ⟨0, 0, 0⟩ ⟨2, 4, 6⟩) j).interiorPt p)) ∧
    (∀ i, i < 8 →
      (createChildAABB (Box3.mk ⟨0, 0, 0⟩ ⟨2, 4, 6⟩) i).max.x -
        (createChildAABB (Box3.mk ⟨0, 0, 0⟩ ⟨2, 4, 6⟩) i).min.x = ((2 : ℚ) - 0) / 2 ∧
      (createChildAABB (Box3.mk ⟨0, 0, 0⟩ ⟨2, 4, 6⟩) i).max.y -
        (createChildAABB (Box3.mk ⟨0, 0, 0⟩ ⟨2, 4, 6⟩) i).min.y = ((4 : ℚ) - 0) / 2 ∧
      (createChildAABB (Box3.mk ⟨0, 0, 0⟩ ⟨2, 4, 6⟩) i).max.z -
        (createChildAABB (Box3.mk ⟨0, 0, 0⟩ ⟨2, 4, 6⟩) i).min.z = ((6 : ℚ) - 0) / 2) :=
  ⟨⟨by decide, by decide, by decide⟩,
    createChildAABB_tiles_parent (Box3.mk ⟨0, 0, 0⟩ ⟨2, 4, 6⟩)
      (by decide) (by decide) (by decide)⟩

theorem normalizeBoxes_spec (bb : BoundingBoxData) (tbb : Option BoundingBoxData) :
    (normalizeBoxes bb tbb).2.2 = ⟨bb.lx, bb.ly, bb.lz⟩ ∧
    (normalizeBoxes bb tbb).1.min + (normalizeBoxes bb tbb).2.2 = ⟨bb.lx, bb.ly, bb.lz⟩ ∧
    (normalizeBoxes bb tbb).1.max + (normalizeBoxes bb tbb).2.2 = ⟨bb.ux, bb.uy, bb.uz⟩ ∧
    (∀ t, tbb = some t →
      (normalizeBoxes bb tbb).2.1.min + (normalizeBoxes bb tbb).2.2 = ⟨t.lx, t.ly, t.lz⟩ ∧
      (normalizeBoxes bb tbb).2.1.max + (normalizeBoxes bb tbb).2.2 = ⟨t.ux, t.uy, t.uz⟩) ∧
    (tbb = none → (normalizeBoxes bb tbb).2.1 = (normalizeBoxes bb tbb).1) := by
  cases tbb with
  | none =>
    refine ⟨rfl, ?_, ?_, ?_, fun _ => rfl⟩ <;>
      simp [normalizeBoxes, Vec3.sub_def, Vec3.add_def]
  | some t =>
    refine ⟨rfl, ?_, ?_, ?_, by intro hc; cases hc⟩
    · simp [normalizeBoxes, Vec3.sub_def, Vec3.add_def]
    · simp [normalizeBoxes, Vec3.sub_def, Vec3.add_def]
    · rintro t' ht'
      obtain rfl : t = t' := by injection ht'
      constructor <;> simp [normalizeBoxes, Vec3.sub_def, Vec3.add_def]

theorem loadOnLoad_elim (url : JSStr) (data : PotreeDoc) (d : Descriptor)
    (tr : List LoadEvent) (h : loadOnLoad url data = some (d, tr)) :
    ∃ rootNumPoints st evs,
      buildRootNumPoints data.version data.hierarchy = some rootNumPoints ∧
      d = mkDescriptor url data rootNumPoints st ∧
      tr = preEvents ++ evs ++ [LoadEvent.completed] ∧
      ((data.version.upTo ⟨1, 4⟩ = true ∧
          buildChildren data.spacing (initialState data rootNumPoints)
            data.hierarchy.tail = some (st, evs)) ∨
       (data.version.upTo ⟨1, 4⟩ = false ∧
          st = initialState data rootNumPoints ∧ evs = [])) := by
  unfold loadOnLoad at h
  cases hb : buildRootNumPoints data.version data.hierarchy with
  | none => rw [hb] at h; cases h
  | some rootNumPoints =>
    rw [hb] at h
    by_cases hv : data.version.upTo ⟨1, 4⟩ = true
    · simp only [hv, if_true] at h
      cases hbc : buildChildren data.spacing (initialState data rootNumPoints)
          data.hierarchy.tail with
      | none => rw [hbc] at h; cases h
      | some p =>
        obtain ⟨st, evs⟩ := p
        rw [hbc] at h
        obtain ⟨hd, htr⟩ := Prod.mk.injEq .. ▸ Option.some.injEq .. ▸ h
        exact ⟨rootNumPoints, st, evs, rfl, hd.symm, htr.symm, Or.inl ⟨hv, hbc⟩⟩
    · simp only [Bool.not_eq_true] at hv
      simp only [hv, Bool.false_eq_true, if_false] at h
      obtain ⟨hd, htr⟩ := Prod.mk.injEq .. ▸ Option.some.injEq .. ▸ h
      exact ⟨rootNumPoints, initialState data rootNumPoints, [], rfl, hd.symm,
        htr.symm, Or.inr ⟨hv, rfl, rfl⟩⟩

theorem buildChildren_events (rootSpacing : ℚ) :
    ∀ (todo : List (JSStr × Nat)) (st : BuildState) (st2 : BuildState)
      (evs : List LoadEvent),
      buildChildren rootSpacing st todo = some (st2, evs) →
      ∀ ev ∈ evs, ∃ n, ev = LoadEvent.childBuilt n := by
  intro todo
  induction todo with
  | nil =>
    intro st st2 evs h
    obtain ⟨_, hevs⟩ := Prod.mk.injEq .. ▸ Option.some.injEq .. ▸ h
    rw [← hevs]
    intro ev hev
    cases hev
  | cons e rest ih =>
    intro st st2 evs h
    unfold buildChildren at h
    cases hs : buildStep rootSpacing st e with
    | none => rw [hs] at h; cases h
    | some p =>
      obtain ⟨st1, ev1⟩ := p
      rw [hs] at h
      dsimp only at h
      cases hrec : buildChildren rootSpacing st1 rest with
      | none => rw [hrec] at h; cases h
      | some q =>
        obtain ⟨stq, evsq⟩ := q
        rw [hrec] at h
        obtain ⟨_, hevs⟩ := Prod.mk.injEq .. ▸ Option.some.injEq .. ▸ h
        rw [← hevs]
        intro ev hev
        rcases List.mem_cons.mp hev with hev1 | hevq
        · subst hev1
          unfold buildStep at hs
          dsimp only at hs
          cases hl : lookupName st.nodes e.1.dropLast with
          | none => rw [hl] at hs; cases hs
          | some parentNode =>
            rw [hl] at hs
            obtain ⟨_, hev⟩ := Prod.mk.injEq .. ▸ Option.some.injEq .. ▸ hs
            exact ⟨e.1, hev.symm⟩
        · exact ih st1 stq evsq hrec ev hevq

/-- C3: for every successful load, `offset` is the declared box's minimum
corner, the descriptor's `boundingBox` round-trips against the declared box
(`normalized + offset` recovers the declared corners), and `tightBoundingBox`
round-trips against the declared tight box when present, else against the
declared full box. -/
theorem load_normalizes_boxes (url : JSStr) (data : PotreeDoc) (d : Descriptor)
    (tr : List LoadEvent) (h : loadOnLoad url data = some (d, tr)) :
    d.offset = ⟨data.boundingBox.lx, data.boundingBox.ly, data.boundingBox.lz⟩ ∧
    d.boundingBox.min + d.offset =
      ⟨data.boundingBox.lx, data.boundingBox.ly, data.boundingBox.lz⟩ ∧
    d.boundingBox.max + d.offset =
      ⟨data.boundingBox.ux, data.boundingBox.uy, data.boundingBox.uz⟩ ∧
    (∀ t, data.tightBoundingBox = some t →
      d.tightBoundingBox.min + d.offset = ⟨t.lx, t.ly, t.lz⟩ ∧
      d.tightBoundingBox.max + d.offset = ⟨t.ux, t.uy, t.uz⟩) ∧
    (data.tightBoundingBox = none →
      d.tightBoundingBox.min + d.offset =
        ⟨data.boundingBox.lx, data.boundingBox.ly, data.boundingBox.lz⟩ ∧
      d.tightBoundingBox.max + d.offset =
        ⟨data.boundingBox.ux, data.boundingBox.uy, data.boundingBox.uz⟩) := by
  obtain ⟨rnp, st, evs, hb, hd, htr, hbr⟩ := loadOnLoad_elim url data d tr h
  subst hd
  obtain ⟨h0, h1, h2, h3, h4⟩ :=
    normalizeBoxes_spec data.boundingBox data.tightBoundingBox
  refine ⟨h0, h1, h2, h3, fun hn => ?_⟩
  rw [show (mkDescriptor url data rnp st).tightBoundingBox =
    (normalizeBoxes data.boundingBox data.tightBoundingBox).2.1 from rfl, h4 hn]
  exact ⟨h1, h2⟩

/-- C4: for every successful load, a `"LAS"`/`"LAZ"` attribute tag selects the
LAS/LAZ decoder constructed with the version and leaves the descriptor's
attribute value raw; any other attribute value selects the binary decoder
constructed with the version, the normalized bounding box and the declared
scale, and replaces the attribute value with the expanded field-layout
object. -/
theorem load_selects_decoder (url : JSStr) (data : PotreeDoc) (d : Descriptor)
    (tr : List LoadEvent) (h : loadOnLoad url data = some (d, tr)) :
    ((data.pointAttributes = PointAttrsValue.tag "LAS".data ∨
        data.pointAttributes = PointAttrsValue.tag "LAZ".data) →
      d.loader = PCLoader.lasLaz data.version ∧
      d.pointAttributes = DescriptorAttrs.raw data.pointAttributes) ∧
    (¬ (data.pointAttributes = PointAttrsValue.tag "LAS".data ∨
        data.pointAttributes = PointAttrsValue.tag "LAZ".data) →
      d.loader = PCLoader.binary data.version d.boundingBox data.scale ∧
      d.pointAttributes = DescriptorAttrs.expanded ⟨data.pointAttributes⟩) := by
  obtain ⟨rnp, st, evs, hb, hd, htr, hbr⟩ := loadOnLoad_elim url data d tr h
  subst hd
  constructor
  · intro hc
    constructor <;>
      simp only [mkDescriptor, selectLoader, if_pos hc]
  · intro hc
    constructor <;>
      simp only [mkDescriptor, selectLoader, if_neg hc]

/-- C7: for every successful load, an `octreeDir` starting with `http` is used
verbatim as the descriptor's base directory; any other `octreeDir` yields the
unresolved join `url + "/../" + octreeDir`. -/
theorem load_resolves_octreeDir (url : JSStr) (data : PotreeDoc) (d : Descriptor)
    (tr : List LoadEvent) (h : loadOnLoad url data = some (d, tr)) :
    (data.octreeDir.take 4 = ['h', 't', 't', 'p'] → d.octreeDir = data.octreeDir) ∧
    (data.octreeDir.take 4 ≠ ['h', 't', 't', 'p'] →
      d.octreeDir = url ++ ['/', '.', '.', '/'] ++ data.octreeDir) := by
  obtain ⟨rnp, st, evs, hb, hd, htr, hbr⟩ := loadOnLoad_elim url data d tr h
  subst hd
  constructor
  · intro hc
    simp only [mkDescriptor, resolveOctreeDir, if_pos hc]
  · intro hc
    simp only [mkDescriptor, resolveOctreeDir, if_neg hc]

/-- C9: for every successful load, the root node has level 0, `hasChildren`
true unconditionally, the declared root spacing, and its point count comes
from the first hierarchy entry exactly when `version.upTo('1.5')`, else it
is 0. -/
theorem load_root_fields (url : JSStr) (data : PotreeDoc) (d : Descriptor)
    (tr : List LoadEvent) (h : loadOnLoad url data = some (d, tr)) :
    d.root.level = 0 ∧ d.root.hasChildren = true ∧ d.root.spacing = data.spacing ∧
    (data.version.upTo ⟨1, 5⟩ = true →
      ∃ e rest, data.hierarchy = e :: rest ∧ d.root.numPoints = e.2) ∧
    (data.version.upTo ⟨1, 5⟩ = false → d.root.numPoints = 0) := by
  obtain ⟨rnp, st, evs, hb, hd, htr, hbr⟩ := loadOnLoad_elim url data d tr h
  subst hd
  refine ⟨rfl, rfl, rfl, ?_, ?_⟩
  · intro hv
    unfold buildRootNumPoints at hb
    rw [hv, if_pos rfl] at hb
    cases hhd : data.hierarchy with
    | nil => rw [hhd] at hb; cases hb
    | cons e rest =>
      rw [hhd] at hb
      simp only [List.head?_cons, Option.map_some] at hb
      obtain hrnp := Option.some.injEq .. ▸ hb
      exact ⟨e, rest, rfl, hrnp.symm⟩
  · intro hv
    unfold buildRootNumPoints at hb
    rw [hv] at hb
    simp only [Bool.false_eq_true, if_false] at hb
    obtain hrnp := Option.some.injEq .. ▸ hb
    exact hrnp.symm

/-- C6: the transport-failure handler always hands the completion callback no
descriptor, decrements the in-flight load counter by one, and appends exactly
one diagnostic log entry carrying the url and the underlying event; being a
total function, it never throws past the load boundary. -/
theorem xhrOnError_reports_failure (g : GlobalState)
    (log : List (String × JSStr × JSStr)) (url : JSStr) (event : JSStr) :
    (xhrOnError g log url event).2.2 = none ∧
    (xhrOnError g log url event).1.numNodesLoading = g.numNodesLoading - 1 ∧
    (xhrOnError g log url event).2.1 =
      log ++ [("Potree: loading file failed.", url, event)] :=
  ⟨rfl, rfl, rfl⟩

/-- Witness: the normalization theorem instantiated at a concrete version 2.0 document. -/
theorem load_normalizes_boxes_witness :
    ((loadOnLoad "u".data docNorm).get (by decide)).1.offset = ⟨0, 0, 0⟩ ∧
    ((loadOnLoad "u".data docNorm).get (by decide)).1.boundingBox.min +
      ((loadOnLoad "u".data docNorm).get (by decide)).1.offset = ⟨0, 0, 0⟩ ∧
    ((loadOnLoad "u".data docNorm).get (by decide)).1.boundingBox.max +
      ((loadOnLoad "u".data docNorm).get (by decide)).1.offset = ⟨4, 4, 4⟩ ∧
    ((loadOnLoad "u".data docNorm).get (by decide)).1.tightBoundingBox.min +
      ((loadOnLoad "u".data docNorm).get (by decide)).1.offset = ⟨1, 1, 1⟩ := by
  have h : loadOnLoad "u".data docNorm =
      some (((loadOnLoad "u".data docNorm).get (by decide)).1,
        ((loadOnLoad "u".data docNorm).get (by decide)).2) :=
    (Option.some_get (by decide)).symm
  have hm := load_normalizes_boxes "u".data docNorm _ _ h
  exact ⟨hm.1, hm.2.1, hm.2.2.1, (hm.2.2.2.1 ⟨1, 1, 1, 3, 3, 3⟩ rfl).1⟩

/-- Witness: the decoder-selection theorem instantiated at a LAS-tagged and an attribute-list document. -/
theorem load_selects_decoder_witness :
    ((loadOnLoad "u".data docNorm).get (by decide)).1.loader = PCLoader.lasLaz ⟨2, 0⟩ ∧
    ((loadOnLoad "u".data docNorm).get (by decide)).1.pointAttributes =
      DescriptorAttrs.raw (PointAttrsValue.tag "LAS".data) ∧
    ((loadOnLoad "u".data docBin).get (by decide)).1.loader =
      PCLoader.binary ⟨2, 0⟩
        ((loadOnLoad "u".data docBin).get (by decide)).1.boundingBox 1 ∧
    ((loadOnLoad "u".data docBin).get (by decide)).1.pointAttributes =
      DescriptorAttrs.expanded
        ⟨PointAttrsValue.attrList ["POSITION_CARTESIAN".data]⟩ := by
  have hN : loadOnLoad "u".data docNorm =
      some (((loadOnLoad "u".data docNorm).get (by decide)).1,
        ((loadOnLoad "u".data docNorm).get (by decide)).2) :=
    (Option.some_get (by decide)).symm
  have hB : loadOnLoad "u".data docBin =
      some (((loadOnLoad "u".data docBin).get (by decide)).1,
        ((loadOnLoad "u".data docBin).get (by decide)).2) :=
    (Option.some_get (by decide)).symm
  have hmN := (load_selects_decoder "u".data docNorm _ _ hN).1 (Or.inl rfl)
  have hmB := (load_selects_decoder "u".data docBin _ _ hB).2 (by decide)
  exact ⟨hmN.1, hmN.2, hmB.1, hmB.2⟩

/-- Witness: the directory-resolution theorem instantiated at an absolute and a relative octreeDir. -/
theorem load_resolves_octreeDir_witness :
    ((loadOnLoad "http://host/cloud.json".data docAbs).get (by decide)).1.octreeDir =
      "http://host/data".data ∧
    ((loadOnLoad "http://host/cloud.json".data docNorm).get (by decide)).1.octreeDir =
      "http://host/cloud.json/../data".data := by
  have hA : loadOnLoad "http://host/cloud.json".data docAbs =
      some (((loadOnLoad "http://host/cloud.json".data docAbs).get (by decide)).1,
        ((loadOnLoad "http://host/cloud.json".data docAbs).get (by decide)).2) :=
    (Option.some_get (by decide)).symm
  have hR : loadOnLoad "http://host/cloud.json".data docNorm =
      some (((loadOnLoad "http://host/cloud.json".data docNorm).get (by decide)).1,
        ((loadOnLoad "http://host/cloud.json".data docNorm).get (by decide)).2) :=
    (Option.some_get (by decide)).symm
  constructor
  · exact (load_resolves_octreeDir _ docAbs _ _ hA).1 (by decide)
  · rw [(load_resolves_octreeDir _ docNorm _ _ hR).2 (by decide)]
    decide

/-- Witness: the root-fields theorem instantiated at a legacy document with root count 100. -/
theorem load_root_fields_witness :
    ((loadOnLoad "u".data docLegacyRoot).get (by decide)).1.root.level = 0 ∧
    ((loadOnLoad "u".data docLegacyRoot).get (by decide)).1.root.hasChildren = true ∧
    ((loadOnLoad "u".data docLegacyRoot).get (by decide)).1.root.spacing = 1 ∧
    ((loadOnLoad "u".data docLegacyRoot).get (by decide)).1.root.numPoints = 100 := by
  have h : loadOnLoad "u".data docLegacyRoot =
      some (((loadOnLoad "u".data docLegacyRoot).get (by decide)).1,
        ((loadOnLoad "u".data docLegacyRoot).get (by decide)).2) :=
    (Option.some_get (by decide)).symm
  have hm := load_root_fields "u".data docLegacyRoot _ _ h
  refine ⟨hm.1, hm.2.1, hm.2.2.1, ?_⟩
  obtain ⟨e, rest, heq, hnp⟩ := hm.2.2.2.1 (by decide)
  have he : e = (['r'], 100) := by
    have : docLegacyRoot.hierarchy = [(['r'], 100)] := rfl
    rw [this] at heq
    exact (List.cons.injEq .. ▸ heq.symm).1
  rw [hnp, he]

/-- C5 counterexample: on a legacy document with one child entry the trace
triggers the root load before the child node is built, and selects the
decoder before tree building, so the claimed state order fails. -/
theorem load_rootLoad_order_counterexample :
    (loadOnLoad "u".data docLegacyChild).map Prod.snd =
      some [LoadEvent.normalizing, LoadEvent.decoderSelecting, LoadEvent.rootBuilt,
        LoadEvent.rootLoadTriggered, LoadEvent.childBuilt ['r', '0'],
        LoadEvent.completed] ∧
    ¬ claimedOrderC5
      [LoadEvent.normalizing, LoadEvent.decoderSelecting, LoadEvent.rootBuilt,
        LoadEvent.rootLoadTriggered, LoadEvent.childBuilt ['r', '0'],
        LoadEvent.completed] ∧
    ¬ allTreeBuildBeforeTrigger
      [LoadEvent.normalizing, LoadEvent.decoderSelecting, LoadEvent.rootBuilt,
        LoadEvent.rootLoadTriggered, LoadEvent.childBuilt ['r', '0'],
        LoadEvent.completed] := by
  refine ⟨rfl, ?_, ?_⟩
  · intro hc
    exact absurd hc.2.1 (by decide)
  · decide

/-- C5 (amended): every successful load emits, in order, normalization,
decoder selection, root construction, the root-load trigger, then zero or
more child constructions (the legacy loop), then completion: the root load is
triggered after normalization, decoder selection and root construction, but
before the remaining legacy tree nodes are built, and the completion callback
comes last. -/
theorem load_event_order (url : JSStr) (data : PotreeDoc) (d : Descriptor)
    (tr : List LoadEvent) (h : loadOnLoad url data = some (d, tr)) :
    ∃ evs, tr =
      [LoadEvent.normalizing, LoadEvent.decoderSelecting, LoadEvent.rootBuilt,
        LoadEvent.rootLoadTriggered] ++ evs ++ [LoadEvent.completed] ∧
      ∀ ev ∈ evs, ∃ n, ev = LoadEvent.childBuilt n := by
  obtain ⟨rnp, st, evs, hb, hd, htr, hbr⟩ := loadOnLoad_elim url data d tr h
  refine ⟨evs, htr, ?_⟩
  rcases hbr with ⟨hv, hbc⟩ | ⟨hv, hst, hevs⟩
  · exact buildChildren_events data.spacing data.hierarchy.tail
      (initialState data rnp) st evs hbc
  · subst hevs
    intro ev hev
    cases hev

/-- Witness: the event-order theorem instantiated at a legacy document with one child entry. -/
theorem load_event_order_witness :
    ∃ evs, ((loadOnLoad "u".data docLegacyChild).get (by decide)).2 =
      [LoadEvent.normalizing, LoadEvent.decoderSelecting, LoadEvent.rootBuilt,
        LoadEvent.rootLoadTriggered] ++ evs ++ [LoadEvent.completed] ∧
      ∀ ev ∈ evs, ∃ n, ev = LoadEvent.childBuilt n :=
  load_event_order "u".data docLegacyChild
    ((loadOnLoad "u".data docLegacyChild).get (by decide)).1
    ((loadOnLoad "u".data docLegacyChild).get (by decide)).2
    (Option.some_get (by decide)).symm

/-- C8 counterexample: the loader copies a declared tight box without checking
it against the full box, so a document declaring a tight box outside the full
box yields a descriptor whose `tightBoundingBox` is not contained in its
`boundingBox`. -/
theorem load_tightBox_not_contained_counterexample :
    ¬ Box3.containsBox
      ((loadOnLoad "u".data docTightOutside).get (by decide)).1.boundingBox
      ((loadOnLoad "u".data docTightOutside).get (by decide)).1.tightBoundingBox := by
  have h : loadOnLoad "u".data docTightOutside =
      some (((loadOnLoad "u".data docTightOutside).get (by decide)).1,
        ((loadOnLoad "u".data docTightOutside).get (by decide)).2) :=
    (Option.some_get (by decide)).symm
  obtain ⟨rnp, st, evs, hb, hd, htr, hbr⟩ := loadOnLoad_elim _ _ _ _ h
  rw [hd]
  intro hc
  have hx := hc.2.1
  simp only [mkDescriptor, normalizeBoxes, docTightOutside, docNorm,
    Vec3.sub_def] at hx
  norm_num at hx

/-- C8 (amended): the descriptor's `tightBoundingBox` is contained in its
`boundingBox` for every document whose declared tight box is contained in the
declared full box or omitted; when the document omits the tight box it equals
the normalized full box exactly. -/
theorem load_tightBox_contained (url : JSStr) (data : PotreeDoc) (d : Descriptor)
    (tr : List LoadEvent) (h : loadOnLoad url data = some (d, tr))
    (hdecl : ∀ t, data.tightBoundingBox = some t →
      data.boundingBox.lx ≤ t.lx ∧ t.ux ≤ data.boundingBox.ux ∧
      data.boundingBox.ly ≤ t.ly ∧ t.uy ≤ data.boundingBox.uy ∧
      data.boundingBox.lz ≤ t.lz ∧ t.uz ≤ data.boundingBox.uz) :
    Box3.containsBox d.boundingBox d.tightBoundingBox ∧
    (data.tightBoundingBox = none → d.tightBoundingBox = d.boundingBox) := by
  obtain ⟨rnp, st, evs, hb, hd, htr, hbr⟩ := loadOnLoad_elim url data d tr h
  subst hd
  cases hto : data.tightBoundingBox with
  | none =>
    constructor
    · simp only [mkDescriptor, normalizeBoxes, hto, Vec3.sub_def, Box3.containsBox]
      refine ⟨le_refl _, le_refl _, le_refl _, le_refl _, le_refl _, le_refl _⟩
    · intro _
      simp only [mkDescriptor, normalizeBoxes, hto]
  | some t =>
    obtain ⟨h1, h2, h3, h4, h5, h6⟩ := hdecl t hto
    constructor
    · simp only [mkDescriptor, normalizeBoxes, hto, Vec3.sub_def, Box3.containsBox]
      exact ⟨by linarith, by linarith, by linarith, by linarith, by linarith,
        by linarith⟩
    · intro hn
      cases hn

/-- Witness: the containment theorem instantiated at a document whose declared tight box lies inside the full box. -/
theorem load_tightBox_contained_witness :
    Box3.containsBox ((loadOnLoad "u".data docNorm).get (by decide)).1.boundingBox
      ((loadOnLoad "u".data docNorm).get (by decide)).1.tightBoundingBox := by
  have h : loadOnLoad "u".data docNorm =
      some (((loadOnLoad "u".data docNorm).get (by decide)).1,
        ((loadOnLoad "u".data docNorm).get (by decide)).2) :=
    (Option.some_get (by decide)).symm
  refine (load_tightBox_contained "u".data docNorm _ _ h ?_).1
  intro t ht
  obtain rfl := (Option.some.inj ht).symm
  decide

theorem lookupName_some_mem (l : List (JSStr × GeometryNode)) (n : JSStr)
    (v : GeometryNode) (h : lookupName l n = some v) : n ∈ nodeKeys l := by
  induction l with
  | nil => cases h
  | cons kv rest ih =>
    obtain ⟨k, w⟩ := kv
    by_cases hk : k = n
    · exact hk ▸ List.mem_cons_self _ _
    · rw [lookupName, if_neg hk] at h
      exact List.mem_cons_of_mem _ (ih h)

theorem lookupName_isSome_of_mem (l : List (JSStr × GeometryNode)) (n : JSStr)
    (h : n ∈ nodeKeys l) : ∃ v, lookupName l n = some v := by
  induction l with
  | nil => cases h
  | cons kv rest ih =>
    obtain ⟨k, v⟩ := kv
    by_cases hk : k = n
    · exact ⟨v, by rw [lookupName, if_pos hk]⟩
    · have hr : n ∈ nodeKeys rest := by
        rcases List.mem_cons.mp h with h1 | h2
        · exact absurd h1.symm hk
        · exact h2
      obtain ⟨v', hv⟩ := ih hr
      exact ⟨v', by rw [lookupName, if_neg hk]; exact hv⟩

theorem buildChildren_ok (rootSpacing : ℚ) :
    ∀ (todo : List (JSStr × Nat)) (st : BuildState),
      parentsPrecede (nodeKeys st.nodes) todo = true →
      (nodeKeys st.nodes ++ todo.map Prod.fst).Nodup →
      (∀ e ∈ todo, e.1 ≠ []) →
      ∃ st2 evs,
        buildChildren rootSpacing st todo = some (st2, evs) ∧
        (∀ n v, lookupName st.nodes n = some v → lookupName st2.nodes n = some v) ∧
        (∀ pr ∈ st.edges, pr ∈ st2.edges) ∧
        ∀ e ∈ todo, childEntryOk rootSpacing st2.nodes st2.edges e := by
  intro todo
  induction todo with
  | nil =>
    intro st hp hn hne
    exact ⟨st, [], rfl, fun n v h => h, fun pr h => h,
      fun e he => absurd he (List.not_mem_nil e)⟩
  | cons e rest ih =>
    intro st hp hn hne
    rw [parentsPrecede, Bool.and_eq_true] at hp
    obtain ⟨hmem, hrest⟩ := hp
    have hpar := of_decide_eq_true hmem
    obtain ⟨pnode, hpl⟩ := lookupName_isSome_of_mem st.nodes e.1.dropLast hpar
    have hename : e.1 ≠ [] := hne e (List.mem_cons_self e rest)
    have hkeysfresh : e.1 ∉ nodeKeys st.nodes := by
      intro hk
      exact List.disjoint_of_nodup_append hn hk (List.mem_cons_self _ _)
    have hparne : e.1.dropLast ≠ e.1 := by
      intro hq
      have hlen := congrArg List.length hq
      rw [List.length_dropLast] at hlen
      have hpos := List.length_pos.mpr hename
      omega
    set node : GeometryNode :=
      ⟨e.1, createChildAABB pnode.boundingBox (jsParseDigit (e.1.getLastD '0')),
        e.1.length - 1, false, rootSpacing / 2 ^ (e.1.length - 1), e.2⟩ with hnode
    set st1 : BuildState :=
      ⟨(e.1, node) :: st.nodes, (e.1.dropLast, e.1) :: st.edges⟩ with hst1
    have hstep : buildStep rootSpacing st e = some (st1, LoadEvent.childBuilt e.1) := by
      unfold buildStep
      dsimp only
      rw [hpl]
    have hrest' : parentsPrecede (nodeKeys st1.nodes) rest = true := hrest
    have hn' : (nodeKeys st1.nodes ++ rest.map Prod.fst).Nodup :=
      List.perm_middle.nodup hn
    have hne' : ∀ f ∈ rest, f.1 ≠ [] := fun f hf => hne f (List.mem_cons_of_mem e hf)
    obtain ⟨st2, evs, hbc, hpres, hedge, hok⟩ := ih st1 hrest' hn' hne'
    have hpres0 : ∀ n v, lookupName st.nodes n = some v →
        lookupName st2.nodes n = some v := by
      intro n v hl
      refine hpres n v ?_
      have hne1 : e.1 ≠ n := by
        intro heq
        exact hkeysfresh (heq ▸ lookupName_some_mem st.nodes n v hl)
      show lookupName ((e.1, node) :: st.nodes) n = some v
      rw [lookupName, if_neg hne1]
      exact hl
    refine ⟨st2, LoadEvent.childBuilt e.1 :: evs, ?_, hpres0, ?_, ?_⟩
    · unfold buildChildren
      rw [hstep]
      dsimp only
      rw [hbc]
    · intro pr hpr
      exact hedge pr (List.mem_cons_of_mem _ hpr)
    · intro f hf
      rcases List.mem_cons.mp hf with hfe | hfr
      · subst hfe
        refine ⟨node, pnode, ?_, ?_, rfl, rfl, rfl, rfl, ?_⟩
        · refine hpres f.1 node ?_
          show lookupName ((f.1, node) :: st.nodes) f.1 = some node
          rw [lookupName, if_pos rfl]
        · refine hpres f.1.dropLast pnode ?_
          show lookupName ((f.1, node) :: st.nodes) f.1.dropLast = some pnode
          rw [lookupName, if_neg (fun hq => hparne hq.symm)]
          exact hpl
        · exact hedge (f.1.dropLast, f.1) (List.mem_cons_self _ _)
      · exact hok f hfr

theorem upTo_15_of_upTo_14 (v : Version) (h : v.upTo ⟨1, 4⟩ = true) :
    v.upTo ⟨1, 5⟩ = true := by
  simp only [Version.upTo, Bool.or_eq_true, Bool.and_eq_true, decide_eq_true_eq] at h ⊢
  omega

theorem jsParseDigit_octal (c : Char)
    (h : c ∈ ['0', '1', '2', '3', '4', '5', '6', '7']) :
    jsParseDigit c = c.toNat - '0'.toNat := by
  fin_cases h <;> decide

/-- C1: for a legacy-version document (`version.upTo('1.4')`) whose hierarchy
list is parent-first with pairwise distinct names, nonempty child names ending
in an octal digit, the load succeeds and builds, for each entry after the
first, a node whose level is `length(name) - 1`, whose child index is the
final character of the name read as an octal digit, whose bounding box is
`createChildAABB` of the parent's box at that index, whose spacing is
`rootSpacing / 2 ^ level`, whose point count is the entry's declared count,
which is attached as a child of the node indexed under the name minus its
last character, and which is registered in the flat index under its name. -/
theorem legacyHierarchy_build (url : JSStr) (data : PotreeDoc)
    (hver : data.version.upTo ⟨1, 4⟩ = true)
    (hne : data.hierarchy ≠ [])
    (hprec : parentsPrecede [['r']] data.hierarchy.tail = true)
    (hnodup : (['r'] :: data.hierarchy.tail.map Prod.fst).Nodup)
    (hnames : ∀ e ∈ data.hierarchy.tail, e.1 ≠ [])
    (hoct : ∀ e ∈ data.hierarchy.tail,
      e.1.getLastD '0' ∈ ['0', '1', '2', '3', '4', '5', '6', '7']) :
    ∃ d tr, loadOnLoad url data = some (d, tr) ∧
      ∀ e ∈ data.hierarchy.tail,
        ∃ node pnode,
          lookupName d.nodes e.1 = some node ∧
          lookupName d.nodes e.1.dropLast = some pnode ∧
          node.level = e.1.length - 1 ∧
          node.boundingBox = createChildAABB pnode.boundingBox
            ((e.1.getLastD '0').toNat - '0'.toNat) ∧
          node.spacing = data.spacing / 2 ^ (e.1.length - 1) ∧
          node.numPoints = e.2 ∧
          (e.1.dropLast, e.1) ∈ d.edges := by
  obtain ⟨e0, tail, hh⟩ := List.exists_cons_of_ne_nil hne
  have h15 := upTo_15_of_upTo_14 data.version hver
  have hb : buildRootNumPoints data.version data.hierarchy = some e0.2 := by
    unfold buildRootNumPoints
    rw [hh]
    simp only [h15, if_true, List.head?_cons, Option.map_some]
    rfl
  obtain ⟨st2, evs, hbc, hpres, hedge, hok⟩ :=
    buildChildren_ok data.spacing data.hierarchy.tail (initialState data e0.2)
      hprec hnodup hnames
  refine ⟨mkDescriptor url data e0.2 st2,
    preEvents ++ evs ++ [LoadEvent.completed], ?_, ?_⟩
  · unfold loadOnLoad
    rw [hb]
    dsimp only
    simp only [hver, if_true]
    rw [hbc]
  · intro e he
    obtain ⟨node, pnode, hl1, hl2, hlev, hbox, hsp, hnp, hedg⟩ := hok e he
    refine ⟨node, pnode, hl1, hl2, hlev, ?_, hsp, hnp, hedg⟩
    rw [hbox, jsParseDigit_octal _ (hoct e he)]

/-- Witness: the legacy-tree theorem instantiated at the spec example hierarchy r, r0, r01. -/
theorem legacyHierarchy_build_witness :
    (docLegacyExample.version.upTo ⟨1, 4⟩ = true ∧
      docLegacyExample.hierarchy ≠ [] ∧
      parentsPrecede [['r']] docLegacyExample.hierarchy.tail = true ∧
      (['r'] :: docLegacyExample.hierarchy.tail.map Prod.fst).Nodup ∧
      (∀ e ∈ docLegacyExample.hierarchy.tail, e.1 ≠ []) ∧
      (∀ e ∈ docLegacyExample.hierarchy.tail,
        e.1.getLastD '0' ∈ ['0', '1', '2', '3', '4', '5', '6', '7'])) ∧
    (∃ d tr, loadOnLoad "u".data docLegacyExample = some (d, tr) ∧
      ∀ e ∈ docLegacyExample.hierarchy.tail,
        ∃ node pnode,
          lookupName d.nodes e.1 = some node ∧
          lookupName d.nodes e.1.dropLast = some pnode ∧
          node.level = e.1.length - 1 ∧
          node.boundingBox = createChildAABB pnode.boundingBox
            ((e.1.getLastD '0').toNat - '0'.toNat) ∧
          node.spacing = docLegacyExample.spacing / 2 ^ (e.1.length - 1) ∧
          node.numPoints = e.2 ∧
          (e.1.dropLast, e.1) ∈ d.edges) :=
  ⟨⟨by decide, by decide, by decide, by decide, by decide, by decide⟩,
    legacyHierarchy_build "u".data docLegacyExample (by decide) (by decide)
      (by decide) (by decide) (by decide) (by decide)⟩

theorem storeRead_append_lt (σ l : List Vec3) (r : Nat) (h : r < σ.length) :
    storeRead (σ ++ l) r = storeRead σ r :=
  List.getD_append σ l _ r h

theorem storeRead_append_self (σ : List Vec3) (v : Vec3) :
    storeRead (σ ++ [v]) σ.length = v := by
  unfold storeRead
  rw [List.getD_append_right σ [v] _ _ (le_refl _)]
  simp

theorem storeRead_write_self (σ : List Vec3) (r : Nat) (v : Vec3)
    (h : r < σ.length) : storeRead (storeWrite σ r v) r = v := by
  unfold storeRead storeWrite
  rw [List.getD_eq_getElem?_getD, List.getElem?_set_self h]
  rfl

theorem storeRead_write_ne (σ : List Vec3) (rtgt rrd : Nat) (v : Vec3)
    (h : rtgt ≠ rrd) : storeRead (storeWrite σ rtgt v) rrd = storeRead σ rrd := by
  unfold storeRead storeWrite
  rw [List.getD_eq_getElem?_getD, List.getD_eq_getElem?_getD,
    List.getElem?_set_ne h]

theorem refStepZ_reads (σ : List Vec3) (rm rM : Nat) (size : Vec3) (index : Nat)
    (hrm : rm < σ.length) (hrM : rM < σ.length) (hne : rm ≠ rM) :
    storeRead (refStepZ σ rm rM size index) rm =
      (if 0 < index &&& 1 then
        { storeRead σ rm with z := (storeRead σ rm).z + size.z / 2 }
       else storeRead σ rm) ∧
    storeRead (refStepZ σ rm rM size index) rM =
      (if 0 < index &&& 1 then storeRead σ rM
       else { storeRead σ rM with z := (storeRead σ rM).z - size.z / 2 }) ∧
    (∀ r, r ≠ rm → r ≠ rM →
      storeRead (refStepZ σ rm rM size index) r = storeRead σ r) ∧
    (refStepZ σ rm rM size index).length = σ.length := by
  by_cases h : 0 < index &&& 1 <;>
    simp only [refStepZ, if_pos, if_neg, h, if_true, if_false]
  · exact ⟨storeRead_write_self σ rm _ hrm, storeRead_write_ne σ rm rM _ hne,
      fun r hr1 _ => storeRead_write_ne σ rm r _ (fun q => hr1 q.symm),
      List.length_set ..⟩
  · exact ⟨storeRead_write_ne σ rM rm _ (fun q => hne q.symm),
      storeRead_write_self σ rM _ hrM,
      fun r _ hr2 => storeRead_write_ne σ rM r _ (fun q => hr2 q.symm),
      List.length_set ..⟩

theorem refStepY_reads (σ : List Vec3) (rm rM : Nat) (size : Vec3) (index : Nat)
    (hrm : rm < σ.length) (hrM : rM < σ.length) (hne : rm ≠ rM) :
    storeRead (refStepY σ rm rM size index) rm =
      (if 0 < index &&& 2 then
        { storeRead σ rm with y := (storeRead σ rm).y + size.y / 2 }
       else storeRead σ rm) ∧
    storeRead (refStepY σ rm rM size index) rM =
      (if 0 < index &&& 2 then storeRead σ rM
       else { storeRead σ rM with y := (storeRead σ rM).y - size.y / 2 }) ∧
    (∀ r, r ≠ rm → r ≠ rM →
      storeRead (refStepY σ rm rM size index) r = storeRead σ r) ∧
    (refStepY σ rm rM size index).length = σ.length := by
  by_cases h : 0 < index &&& 2 <;>
    simp only [refStepY, if_pos, if_neg, h, if_true, if_false]
  · exact ⟨storeRead_write_self σ rm _ hrm, storeRead_write_ne σ rm rM _ hne,
      fun r hr1 _ => storeRead_write_ne σ rm r _ (fun q => hr1 q.symm),
      List.length_set ..⟩
  · exact ⟨storeRead_write_ne σ rM rm _ (fun q => hne q.symm),
      storeRead_write_self σ rM _ hrM,
      fun r _ hr2 => storeRead_write_ne σ rM r _ (fun q => hr2 q.symm),
      List.length_set ..⟩

theorem refStepX_reads (σ : List Vec3) (rm rM : Nat) (size : Vec3) (index : Nat)
    (hrm : rm < σ.length) (hrM : rM < σ.length) (hne : rm ≠ rM) :
    storeRead (refStepX σ rm rM size index) rm =
      (if 0 < index &&& 4 then
        { storeRead σ rm with x := (storeRead σ rm).x + size.x / 2 }
       else storeRead σ rm) ∧
    storeRead (refStepX σ rm rM size index) rM =
      (if 0 < index &&& 4 then storeRead σ rM
       else { storeRead σ rM with x := (storeRead σ rM).x - size.x / 2 }) ∧
    (∀ r, r ≠ rm → r ≠ rM →
      storeRead (refStepX σ rm rM size index) r = storeRead σ r) ∧
    (refStepX σ rm rM size index).length = σ.length := by
  by_cases h : 0 < index &&& 4 <;>
    simp only [refStepX, if_pos, if_neg, h, if_true, if_false]
  · exact ⟨storeRead_write_self σ rm _ hrm, storeRead_write_ne σ rm rM _ hne,
      fun r hr1 _ => storeRead_write_ne σ rm r _ (fun q => hr1 q.symm),
      List.length_set ..⟩
  · exact ⟨storeRead_write_ne σ rM rm _ (fun q => hne q.symm),
      storeRead_write_self σ rM _ hrM,
      fun r _ hr2 => storeRead_write_ne σ rM r _ (fun q => hr2 q.symm),
      List.length_set ..⟩

/-- C10: at the heap level, `createChildAABB` never mutates its argument box:
the two result references are fresh (at or beyond the old heap end, hence
distinct from any valid old reference), the parent's `min` and `max` cells
read back unchanged, and the returned fresh cells hold exactly the value of
the pure `createChildAABB` applied to the parent's vectors — the result is
built from clones. -/
theorem createChildAABBRef_frame (σ : List Vec3) (aabb : Box3Ref) (index : Nat)
    (hmin : aabb.minRef < σ.length) (hmax : aabb.maxRef < σ.length) :
    storeRead (createChildAABBRef σ aabb index).1 aabb.minRef =
      storeRead σ aabb.minRef ∧
    storeRead (createChildAABBRef σ aabb index).1 aabb.maxRef =
      storeRead σ aabb.maxRef ∧
    σ.length ≤ (createChildAABBRef σ aabb index).2.minRef ∧
    σ.length ≤ (createChildAABBRef σ aabb index).2.maxRef ∧
    Box3.mk
        (storeRead (createChildAABBRef σ aabb index).1
          (createChildAABBRef σ aabb index).2.minRef)
        (storeRead (createChildAABBRef σ aabb index).1
          (createChildAABBRef σ aabb index).2.maxRef) =
      createChildAABB
        (Box3.mk (storeRead σ aabb.minRef) (storeRead σ aabb.maxRef)) index := by
  unfold createChildAABBRef
  dsimp only
  have hlen1 : (σ ++ [storeRead σ aabb.minRef]).length = σ.length + 1 := by simp
  have hlen2 : ((σ ++ [storeRead σ aabb.minRef]) ++
      [storeRead (σ ++ [storeRead σ aabb.minRef]) aabb.maxRef]).length =
      σ.length + 2 := by simp
  have hm2 : storeRead ((σ ++ [storeRead σ aabb.minRef]) ++
      [storeRead (σ ++ [storeRead σ aabb.minRef]) aabb.maxRef]) σ.length =
      storeRead σ aabb.minRef := by
    rw [storeRead_append_lt _ _ _ (by omega), storeRead_append_self]
  have hM2 : storeRead ((σ ++ [storeRead σ aabb.minRef]) ++
      [storeRead (σ ++ [storeRead σ aabb.minRef]) aabb.maxRef])
      (σ ++ [storeRead σ aabb.minRef]).length =
      storeRead σ aabb.maxRef := by
    rw [storeRead_append_self, storeRead_append_lt _ _ _ hmax]
  have hp2min : storeRead ((σ ++ [storeRead σ aabb.minRef]) ++
      [storeRead (σ ++ [storeRead σ aabb.minRef]) aabb.maxRef]) aabb.minRef =
      storeRead σ aabb.minRef := by
    rw [storeRead_append_lt _ _ _ (by omega), storeRead_append_lt _ _ _ hmin]
  have hp2max : storeRead ((σ ++ [storeRead σ aabb.minRef]) ++
      [storeRead (σ ++ [storeRead σ aabb.minRef]) aabb.maxRef]) aabb.maxRef =
      storeRead σ aabb.maxRef := by
    rw [storeRead_append_lt _ _ _ (by omega), storeRead_append_lt _ _ _ hmax]
  obtain ⟨hz1, hz2, hzO, hzL⟩ := refStepZ_reads
    ((σ ++ [storeRead σ aabb.minRef]) ++
      [storeRead (σ ++ [storeRead σ aabb.minRef]) aabb.maxRef])
    σ.length (σ ++ [storeRead σ aabb.minRef]).length
    (storeRead ((σ ++ [storeRead σ aabb.minRef]) ++
        [storeRead (σ ++ [storeRead σ aabb.minRef]) aabb.maxRef])
        (σ ++ [storeRead σ aabb.minRef]).length -
      storeRead ((σ ++ [storeRead σ aabb.minRef]) ++
        [storeRead (σ ++ [storeRead σ aabb.minRef]) aabb.maxRef]) σ.length)
    index (by omega) (by omega) (by omega)
  obtain ⟨hy1, hy2, hyO, hyL⟩ := refStepY_reads
    (refStepZ ((σ ++ [storeRead σ aabb.minRef]) ++
        [storeRead (σ ++ [storeRead σ aabb.minRef]) aabb.maxRef])
      σ.length (σ ++ [storeRead σ aabb.minRef]).length
      (storeRead ((σ ++ [storeRead σ aabb.minRef]) ++
          [storeRead (σ ++ [storeRead σ aabb.minRef]) aabb.maxRef])
          (σ ++ [storeRead σ aabb.minRef]).length -
        storeRead ((σ ++ [storeRead σ aabb.minRef]) ++
          [storeRead (σ ++ [storeRead σ aabb.minRef]) aabb.maxRef]) σ.length)
      index)
    σ.length (σ ++ [storeRead σ aabb.minRef]).length
    (storeRead ((σ ++ [storeRead σ aabb.minRef]) ++
        [storeRead (σ ++ [storeRead σ aabb.minRef]) aabb.maxRef])
        (σ ++ [storeRead σ aabb.minRef]).length -
      storeRead ((σ ++ [storeRead σ aabb.minRef]) ++
        [storeRead (σ ++ [storeRead σ aabb.minRef]) aabb.maxRef]) σ.length)
    index (by omega) (by omega) (by omega)
  obtain ⟨hx1, hx2, hxO, hxL⟩ := refStepX_reads
    (refStepY (refStepZ ((σ ++ [storeRead σ aabb.minRef]) ++
          [storeRead (σ ++ [storeRead σ aabb.minRef]) aabb.maxRef])
        σ.length (σ ++ [storeRead σ aabb.minRef]).length
        (storeRead ((σ ++ [storeRead σ aabb.minRef]) ++
            [storeRead (σ ++ [storeRead σ aabb.minRef]) aabb.maxRef])
            (σ ++ [storeRead σ aabb.minRef]).length -
          storeRead ((σ ++ [storeRead σ aabb.minRef]) ++
            [storeRead (σ ++ [storeRead σ aabb.minRef]) aabb.maxRef]) σ.length)
        index)
      σ.length (σ ++ [storeRead σ aabb.minRef]).length
      (storeRead ((σ ++ [storeRead σ aabb.minRef]) ++
          [storeRead (σ ++ [storeRead σ aabb.minRef]) aabb.maxRef])
          (σ ++ [storeRead σ aabb.minRef]).length -
        storeRead ((σ ++ [storeRead σ aabb.minRef]) ++
          [storeRead (σ ++ [storeRead σ aabb.minRef]) aabb.maxRef]) σ.length)
      index)
    σ.length (σ ++ [storeRead σ aabb.minRef]).length
    (storeRead ((σ ++ [storeRead σ aabb.minRef]) ++
        [storeRead (σ ++ [storeRead σ aabb.minRef]) aabb.maxRef])
        (σ ++ [storeRead σ aabb.minRef]).length -
      storeRead ((σ ++ [storeRead σ aabb.minRef]) ++
        [storeRead (σ ++ [storeRead σ aabb.minRef]) aabb.maxRef]) σ.length)
    index (by omega) (by omega) (by omega)
  refine ⟨?_, ?_, ?_, ?_, ?_⟩
  · rw [hxO aabb.minRef (by omega) (by omega), hyO aabb.minRef (by omega) (by omega),
      hzO aabb.minRef (by omega) (by omega)]
    exact hp2min
  · rw [hxO aabb.maxRef (by omega) (by omega), hyO aabb.maxRef (by omega) (by omega),
      hzO aabb.maxRef (by omega) (by omega)]
    exact hp2max
  · exact le_refl _
  · omega
  · rw [hx1, hx2, hy1, hy2, hz1, hz2, hm2, hM2]
    rfl

/-- Witness: the frame theorem instantiated at a two-cell heap and child index 5. -/
theorem createChildAABBRef_frame_witness :
    ((0 : Nat) < ([⟨0, 0, 0⟩, ⟨2, 2, 2⟩] : List Vec3).length ∧
      (1 : Nat) < ([⟨0, 0, 0⟩, ⟨2, 2, 2⟩] : List Vec3).length) ∧
    (storeRead (createChildAABBRef [⟨0, 0, 0⟩, ⟨2, 2, 2⟩] ⟨0, 1⟩ 5).1 0 =
      storeRead [⟨0, 0, 0⟩, ⟨2, 2, 2⟩] 0 ∧
    storeRead (createChildAABBRef [⟨0, 0, 0⟩, ⟨2, 2, 2⟩] ⟨0, 1⟩ 5).1 1 =
      storeRead [⟨0, 0, 0⟩, ⟨2, 2, 2⟩] 1 ∧
    ([⟨0, 0, 0⟩, ⟨2, 2, 2⟩] : List Vec3).length ≤
      (createChildAABBRef [⟨0, 0, 0⟩, ⟨2, 2, 2⟩] ⟨0, 1⟩ 5).2.minRef ∧
    ([⟨0, 0, 0⟩, ⟨2, 2, 2⟩] : List Vec3).length ≤
      (createChildAABBRef [⟨0, 0, 0⟩, ⟨2, 2, 2⟩] ⟨0, 1⟩ 5).2.maxRef ∧
    Box3.mk
        (storeRead (createChildAABBRef [⟨0, 0, 0⟩, ⟨2, 2, 2⟩] ⟨0, 1⟩ 5).1
          (createChildAABBRef [⟨0, 0, 0⟩, ⟨2, 2, 2⟩] ⟨0, 1⟩ 5).2.minRef)
        (storeRead (createChildAABBRef [⟨0, 0, 0⟩, ⟨2, 2, 2⟩] ⟨0, 1⟩ 5).1
          (createChildAABBRef [⟨0, 0, 0⟩, ⟨2, 2, 2⟩] ⟨0, 1⟩ 5).2.maxRef) =
      createChildAABB
        (Box3.mk (storeRead [⟨0, 0, 0⟩, ⟨2, 2, 2⟩] 0)
          (storeRead [⟨0, 0, 0⟩, ⟨2, 2, 2⟩] 1)) 5) :=
  ⟨⟨by decide, by decide⟩,
    createChildAABBRef_frame [⟨0, 0, 0⟩, ⟨2, 2, 2⟩] ⟨0, 1⟩ 5
      (by decide) (by decide)⟩
